import Mathlib

/-!
Shallow embedding of the rss-epi aggregation pipeline:
`scripts/fetch-rss.js` (feed run) and the companion puppeteer script
(special scrape run).  File I/O is modelled by passing the corpus and the
run-log contents as values; network I/O is modelled by passing each
source's fetch result as a value.  JavaScript `Date` parsing is modelled
by an arbitrary valuation `pd : String → Option Int` mapping a `pubDate`
string to its timestamp in milliseconds (`none` for an invalid date), and
"now" by an `Int` timestamp `now` together with its ISO rendering
`nowISO`.  `localeCompare` is modelled as code-point string comparison.
All sequences are Lean lists in program order.
-/

/-- Canonical article record produced by both fetch scripts.  Feed-derived
articles carry no `author` key (`none`); scrape-derived ones always do. -/
structure Article where
  id : String
  title : String
  description : String
  link : String
  pubDate : String
  source : String
  category : String
  author : Option String := none
deriving Repr, DecidableEq

/-- One entry of `rss.json`: `{id, title, url, category}`. -/
structure RssSource where
  id : String
  title : String
  url : String
  category : String
deriving Repr, DecidableEq

/-- JavaScript `a || b` for an optional string `a`: the empty string is
falsy, so a present-but-empty `a` still falls through to `b`. -/
def jsOrStr (a : Option String) (b : String) : String :=
  match a with
  | some s => if s = "" then b else s
  | none => b

/-- A parsed feed item as consumed by `fetchRSS` (fields the script reads;
`none` models an absent field). -/
structure FeedItem where
  title : Option String := none
  contentSnippet : Option String := none
  description : Option String := none
  link : Option String := none
  pubDate : Option String := none
  isoDate : Option String := none
deriving Repr, DecidableEq

/-- `feed.items.map(item => ({id: source.id, title: item.title || '', ...}))`
from `fetchRSS`; `nowISO` is `new Date().toISOString()`. -/
def feedItemToArticle (source : RssSource) (nowISO : String) (item : FeedItem) : Article :=
  { id := source.id
    title := jsOrStr item.title ""
    description := jsOrStr item.contentSnippet (jsOrStr item.description "")
    link := jsOrStr item.link ""
    pubDate := jsOrStr item.pubDate (jsOrStr item.isoDate nowISO)
    source := source.title
    category := source.category
    author := none }

/-- The dedup idiom used throughout both scripts:
`articles.filter((article, index, self) => index === self.findIndex(t => t.title === article.title))`,
i.e. keep an element exactly when its index equals the first index holding
its title. -/
def uniqueByTitle (l : List Article) : List Article :=
  (l.enum.filter (fun ia => l.findIdx (fun t => t.title == ia.2.title) == ia.1)).map
    (fun ia => ia.2)

/-- Recursive characterisation of `uniqueByTitle`: keep the first
occurrence of each title, `seen` being the titles of the already-kept
prefix.  Proved equal to `uniqueByTitle` below. -/
def dedupAux (seen : List String) : List Article → List Article
  | [] => []
  | a :: rest =>
    if a.title ∈ seen then dedupAux seen rest
    else a :: dedupAux (a.title :: seen) rest

/-- `[...existingArticles, ...allArticles]` followed by the title dedup
filter (the Merge & Dedup Engine). -/
def mergeAndDedup (existingArticles allArticles : List Article) : List Article :=
  uniqueByTitle (existingArticles ++ allArticles)

/-- `1000 * 60 * 60 * 24` milliseconds. -/
def msPerDay : Nat := 1000 * 60 * 60 * 24

/-- `Math.ceil(diffTime / (1000 * 60 * 60 * 24))` for a nonnegative
integral `diffTime`: ceiling division by `msPerDay`. -/
def ceilDays (diffTime : Nat) : Nat := (diffTime + msPerDay - 1) / msPerDay

/-- `filter_latest(article, latestDays)`.  An invalid `pubDate` makes
`now - date` NaN, so `Math.ceil(NaN) <= latestDays` is false and the
article is excluded. -/
def filter_latest (pd : String → Option Int) (now : Int) (article : Article)
    (latestDays : Nat) : Bool :=
  match pd article.pubDate with
  | none => false
  | some date => decide (ceilDays (now - date).natAbs ≤ latestDays)

/-- `a.id.localeCompare(b.id)`, modelled as code-point string comparison
(sign convention of `localeCompare`). -/
def localeCompare (x y : String) : Int :=
  if x < y then -1 else if x = y then 0 else 1

/-- The sort comparator of both scripts: ids first via `localeCompare`,
then `new Date(b.pubDate) - new Date(a.pubDate)` (publish date
descending).  When either date is invalid the subtraction is NaN, which
the sort treats as `0` (ECMAScript `CompareArrayElements`). -/
def articleCmp (pd : String → Option Int) (a b : Article) : Int :=
  if a.id ≠ b.id then localeCompare a.id b.id
  else
    match pd b.pubDate, pd a.pubDate with
    | some db, some da => db - da
    | _, _ => 0

/-- `articleCmp` as a "comes no later than" test. -/
def articleLe (pd : String → Option Int) (a b : Article) : Bool :=
  decide (articleCmp pd a b ≤ 0)

/-- `uniqueArticles.sort(comparator)`.  V8's `Array.prototype.sort` is
stable, so it is modelled by the stable `List.mergeSort`. -/
def sortArticles (pd : String → Option Int) (l : List Article) : List Article :=
  l.mergeSort (articleLe pd)

/-- The value resolved by `parser.parseURL`: a feed whose `items` field may
be absent. -/
structure Feed where
  items : Option (List FeedItem)
deriving Repr, DecidableEq

/-- Outcome of the raced fetch for one source: the parser resolved with a
feed, or the race rejected (timeout or parse error) with a message. -/
inductive NetResult where
  | resolved (feed : Feed)
  | failed (msg : String)
deriving Repr, DecidableEq

/-- `fetchWithTimeout`: any rejection (including `Timeout`) is caught,
logged to the console only, and turned into `null`. -/
def fetchWithTimeout (net : NetResult) : Option Feed :=
  match net with
  | .resolved feed => some feed
  | .failed _ => none

/-- `['MMWR', 'EJD', 'Epidemiology', 'AJPH']`: sources whose fresh batch is
recency-filtered to 60 days. -/
def recencyFilteredIds : List String := ["MMWR", "EJD", "Epidemiology", "AJPH"]

/-- One iteration of the source loop in `fetchRSS`: a `null` feed or a feed
without `items` throws `'No feed or items found'`; otherwise the items are
mapped to articles, deduplicated by title, and (for the configured ids)
recency-filtered to 60 days. -/
def runSource (pd : String → Option Int) (now : Int) (nowISO : String)
    (source : RssSource) (net : NetResult) : Except String (List Article) :=
  match fetchWithTimeout net with
  | none => .error "No feed or items found"
  | some feed =>
    match feed.items with
    | none => .error "No feed or items found"
    | some items =>
      let articles := items.map (feedItemToArticle source nowISO)
      let articles := uniqueByTitle articles
      let articles :=
        if source.id ∈ recencyFilteredIds then
          articles.filter (fun a => filter_latest pd now a 60)
        else articles
      .ok articles

/-- One loop iteration of `fetchRSS` acting on the accumulators
`(allArticles, errorSources)`: a success appends its articles, a failure
appends `"<source title> (<error message>)"` to the error list. -/
def sourceStep (pd : String → Option Int) (now : Int) (nowISO : String)
    (acc : List Article × List String) (sn : RssSource × NetResult) :
    List Article × List String :=
  match runSource pd now nowISO sn.1 sn.2 with
  | .ok arts => (acc.1 ++ arts, acc.2)
  | .error msg => (acc.1, acc.2 ++ [sn.1.title ++ " (" ++ msg ++ ")"])

/-- The source loop of `fetchRSS`: successes are appended to
`allArticles`, failures append `"<source title> (<error message>)"` to
`errorSources`; processing always continues with the next source. -/
def processSources (pd : String → Option Int) (now : Int) (nowISO : String)
    (fetches : List (RssSource × NetResult)) : List Article × List String :=
  fetches.foldl (sourceStep pd now nowISO) ([], [])

/-- Result of one run: process exit code, the corpus written (or `none` if
the corpus file was not written), and the message handed to the run log. -/
structure RunOutcome where
  exitCode : Nat
  written : Option (List Article)
  logMessage : String
deriving Repr, DecidableEq

/-- The whole `fetchRSS` run after the corpus has been read: when the loop
collected no articles at all it throws, logs a critical error, and exits 1
without writing; otherwise it merges, dedups, sorts, writes, logs, and
exits 0. -/
def fetchRSS (pd : String → Option Int) (now : Int) (nowISO : String)
    (existingArticles : List Article) (fetches : List (RssSource × NetResult)) :
    RunOutcome :=
  let res := processSources pd now nowISO fetches
  if res.1.isEmpty then
    { exitCode := 1
      written := none
      logMessage := "Critical error: No articles were fetched from any source" }
  else
    let uniqueArticles := mergeAndDedup existingArticles res.1
    { exitCode := 0
      written := some (sortArticles pd uniqueArticles)
      logMessage :=
        if res.2.isEmpty then "All sources fetched successfully"
        else "Failed sources: " ++ String.intercalate "; " res.2 }

/-- Raw item returned by `extractData_chinaepi` (the per-site extraction
function); it never sets a `description` field. -/
structure RawItem where
  title : String
  author : String
  pubDate : String
  link : String
  abstractLink : String
  pdfLink : String
  htmlLink : String
deriving Repr, DecidableEq

/-- The `formattedItems` mapping inside `fetchWithPuppeteer`.
`item.description` is never set by the extractor, so
`item.description || ''` is always `''`.  On strings, `s || ''` is the
identity. -/
def specialItemToArticle (source : RssSource) (nowISO : String) (item : RawItem) :
    Article :=
  { id := source.id
    title := item.title
    author := some item.author
    description := ""
    link := item.link
    pubDate := if item.pubDate = "" then nowISO else item.pubDate
    source := source.title
    category := source.category }

/-- `fetchWithPuppeteer(url, source)`: on any navigation or extraction
error it returns `null`; otherwise the extracted raw items mapped to
articles.  `result` is the outcome of the browser extraction for the
url. -/
def fetchWithPuppeteer (source : RssSource) (nowISO : String)
    (result : Option (List RawItem)) : Option (List Article) :=
  result.map (fun items => items.map (specialItemToArticle source nowISO))

/-- `SpecialRssIds = ['中华流病']`. -/
def SpecialRssIds : List String := ["中华流病"]

/-- The sliding three-month window of `fetchSpecialRSS`: for
`i = 0, 1, 2`, month `currentMonth - i`, wrapping into the previous year
when the month index drops below 1. -/
def monthWindow (currentYear currentMonth : Int) : List (Int × Int) :=
  (List.range 3).map (fun i =>
    let month := currentMonth - Int.ofNat i
    if month < 1 then (currentYear - 1, month + 12) else (currentYear, month))

/-- The listing-page URL generated for one (year, month) pair. -/
def issueListUrl (year month : Int) : String :=
  "http://chinaepi.icdc.cn/zhlxbx/ch/reader/issue_list.aspx?year_id=" ++ toString year ++
    "&quarter_id=" ++ toString month

/-- The three listing-page URLs generated for the 中华流病 source. -/
def genUrls (currentYear currentMonth : Int) : List String :=
  (monthWindow currentYear currentMonth).map (fun p => issueListUrl p.1 p.2)

/-- URL list for one special source: the generated three-month window for
中华流病, otherwise the source's configured single URL. -/
def sourceUrls (currentYear currentMonth : Int) (source : RssSource) : List String :=
  if source.id = "中华流病" then genUrls currentYear currentMonth else [source.url]

/-- Per-URL processing inside the `fetchSpecialRSS` loop: a `null` result
is skipped; otherwise the articles are deduplicated by title and (for
中华流病) recency-filtered to 90 days. -/
def processSpecialUrl (pd : String → Option Int) (now : Int) (source : RssSource)
    (data : Option (List Article)) : List Article :=
  match data with
  | none => []
  | some arts =>
    let articles := uniqueByTitle arts
    if source.id ∈ SpecialRssIds then
      articles.filter (fun a => filter_latest pd now a 90)
    else articles

/-- `allArticles` accumulated by `fetchSpecialRSS`: the special sources in
registry order, each contributing the concatenation of its URL results in
generation order (URLs are fetched sequentially). -/
def specialBatch (pd : String → Option Int) (now : Int) (nowISO : String)
    (currentYear currentMonth : Int) (sources : List RssSource)
    (fetch : String → Option (List RawItem)) : List Article :=
  ((sources.filter (fun s => s.id ∈ SpecialRssIds)).map (fun s =>
    ((sourceUrls currentYear currentMonth s).map (fun u =>
      processSpecialUrl pd now s (fetchWithPuppeteer s nowISO (fetch u)))).flatten)).flatten

/-- The whole `fetchSpecialRSS` run after the corpus has been read.  Note:
unlike `fetchRSS`, it has no empty-batch guard — it merges, sorts, and
writes the corpus unconditionally (even when `allArticles` is empty) and
finishes with exit code 0; it never writes the run log. -/
def fetchSpecialRSS (pd : String → Option Int) (now : Int) (nowISO : String)
    (currentYear currentMonth : Int) (existingArticles : List Article)
    (sources : List RssSource) (fetch : String → Option (List RawItem)) : RunOutcome :=
  let allArticles := specialBatch pd now nowISO currentYear currentMonth sources fetch
  let uniqueArticles := mergeAndDedup existingArticles allArticles
  { exitCode := 0
    written := some (sortArticles pd uniqueArticles)
    logMessage := "" }

/-- JavaScript `line.startsWith(timestamp)`: character-level prefix test. -/
def jsStartsWith (s pre : String) : Bool :=
  pre.data.isPrefixOf s.data

/-- JavaScript `String.prototype.trim`: strip whitespace from both ends. -/
def jsTrim (s : String) : String :=
  ⟨((s.data.dropWhile Char.isWhitespace).reverse.dropWhile Char.isWhitespace).reverse⟩

/-- `writeLog` from `fetch-rss.js`, on the run-log file modelled as its
list of nonblank lines (the script reads the file, splits on newlines and
drops blank lines).  `logEntry` is `` `${timestamp}: ${message}\n` ``; the
append branch appends it to the file, i.e. adds the line
`timestamp ++ ": " ++ message`; the replace branch rewrites every line
starting with `timestamp` to `logEntry.trim()`.  The `line.isEmpty` test
models JS truthiness of the found line. -/
def writeLog (timestamp message : String) (lines : List String) : List String :=
  match lines.find? (fun line => jsStartsWith line timestamp) with
  | some line =>
    if line = "" then lines ++ [timestamp ++ ": " ++ message]
    else
      lines.map (fun l =>
        if jsStartsWith l timestamp then jsTrim (timestamp ++ ": " ++ message ++ "\n")
        else l)
  | none => lines ++ [timestamp ++ ": " ++ message]

/-- A sequence of run-log writes applied to an initially missing (empty)
log file. -/
def applyLog (writes : List (String × String)) : List String :=
  writes.foldl (fun lines p => writeLog p.1 p.2 lines) []

/-- A well-formed run-log write: the date key is 10 characters
(`YYYY-MM-DD`) and the trimmed log entry is the date key, `": "`, and the
message (i.e. the message carries no surrounding whitespace or newline,
which is what `writeLog` is ever invoked with). -/
def goodWrite (p : String × String) : Prop :=
  p.1.length = 10 ∧ jsTrim (p.1 ++ ": " ++ p.2 ++ "\n") = p.1 ++ ": " ++ p.2

/-- Every line of the log file has the shape `<date key>: <message>` with a
10-character date key. -/
def EntryForm (lines : List String) : Prop :=
  ∀ l ∈ lines, ∃ t m, l = t ++ ": " ++ m ∧ t.length = 10

/-- At most one line per calendar date: for every 10-character date key,
at most one line starts with it. -/
def AtMostOnePerDate (lines : List String) : Prop :=
  ∀ ts : String, ts.length = 10 → lines.countP (fun l => jsStartsWith l ts) ≤ 1

/-- Sample feed source "A" (id not in the recency allow-list). -/
def srcA : RssSource := ⟨"A", "Journal A", "http://a.example/rss", "epi"⟩

/-- Sample feed source "B" (id not in the recency allow-list). -/
def srcB : RssSource := ⟨"B", "Journal B", "http://b.example/rss", "epi"⟩

/-- Sample feed item served by source "A". -/
def itemA : FeedItem :=
  { title := some "Alpha", link := some "http://a.example/1", pubDate := some "2024-01-01" }

/-- Sample pre-existing corpus article owned by source "A". -/
def artX : Article :=
  ⟨"A", "X", "old description", "http://a.example/x", "2023-12-31", "Journal A", "epi", none⟩

/-- A freshly fetched article colliding with `artX` on the title, with a
changed description. -/
def artY : Article :=
  ⟨"A", "X", "changed description", "http://a.example/x2", "2024-01-05", "Journal A", "epi",
    none⟩

/-- A corpus article with an empty title. -/
def artEmpty : Article := ⟨"A", "", "", "", "2024-01-01", "Journal A", "epi", none⟩

/-- A later fetched article with an empty title from another source. -/
def artEmptyB : Article := ⟨"B", "", "", "", "2024-01-03", "Journal B", "epi", none⟩

/-- The special scraped source from `rss.json`. -/
def srcSpecial : RssSource :=
  ⟨"中华流病", "中华流行病学杂志", "http://chinaepi.icdc.cn/zhlxbx/ch/index.aspx", "epi"⟩

/-- A total date valuation (every `pubDate` string parses), used to
instantiate theorems at concrete inputs. -/
def pdZero : String → Option Int := fun _ => some 0

/-- A concrete two-source run: source A resolves with one item, source B's
raced fetch rejects with a `Timeout` error. -/
def feedFetches : List (RssSource × NetResult) :=
  [(srcA, .resolved ⟨some [itemA]⟩), (srcB, .failed "Timeout")]

/-! ### Generic list facts used to relate the `filter`/`findIndex` dedup
idiom to its recursive characterisation -/

theorem findIdx_append_of_false {α : Type} (p : α → Bool) (pre suf : List α)
    (h : ∀ x ∈ pre, p x = false) :
    (pre ++ suf).findIdx p = pre.length + suf.findIdx p := by
  induction pre with
  | nil => simp
  | cons y ys ih =>
    have hy : p y = false := h y (by simp)
    simp only [List.cons_append, List.findIdx_cons, hy, cond_false, List.length_cons]
    rw [ih (fun x hx => h x (by simp [hx]))]
    omega

theorem findIdx_append_lt {α : Type} (p : α → Bool) (pre suf : List α)
    (h : ∃ x ∈ pre, p x = true) :
    (pre ++ suf).findIdx p < pre.length := by
  induction pre with
  | nil => simp at h
  | cons y ys ih =>
    by_cases hy : p y = true
    · simp [List.findIdx_cons, hy]
    · have hy' : p y = false := by simpa using hy
      obtain ⟨x, hx, hpx⟩ := h
      rcases List.mem_cons.mp hx with rfl | hx2
      · rw [hy'] at hpx; cases hpx
      · have := ih ⟨x, hx2, hpx⟩
        simp only [List.cons_append, List.findIdx_cons, hy', cond_false, List.length_cons]
        omega

/-! ### The dedup filter equals keep-first-occurrence -/

theorem dedupAux_congr {seen₁ seen₂ : List String}
    (h : ∀ t, t ∈ seen₁ ↔ t ∈ seen₂) :
    ∀ l, dedupAux seen₁ l = dedupAux seen₂ l
  | [] => rfl
  | a :: rest => by
    by_cases ha : a.title ∈ seen₁
    · rw [dedupAux, dedupAux, if_pos ha, if_pos ((h a.title).mp ha)]
      exact dedupAux_congr h rest
    · rw [dedupAux, dedupAux, if_neg ha, if_neg (fun hb => ha ((h a.title).mpr hb))]
      have h' : ∀ t, t ∈ a.title :: seen₁ ↔ t ∈ a.title :: seen₂ := by
        intro t; simp [h t]
      rw [dedupAux_congr h' rest]

theorem uniqueByTitle_go :
    ∀ (suf pre : List Article),
      ((List.enumFrom pre.length suf).filter
        (fun ia => (pre ++ suf).findIdx (fun t => t.title == ia.2.title) == ia.1)).map
          (fun ia => ia.2)
      = dedupAux (pre.map Article.title) suf
  | [], pre => by simp [dedupAux]
  | a :: rest, pre => by
    have hsplit : pre ++ a :: rest = (pre ++ [a]) ++ rest := by simp
    have hlen : pre.length + 1 = (pre ++ [a]).length := by simp
    by_cases hmem : a.title ∈ pre.map Article.title
    · have hex : ∃ x ∈ pre, (fun t => t.title == a.title) x = true := by
        obtain ⟨x, hx, hxt⟩ := List.mem_map.mp hmem
        exact ⟨x, hx, by simp [hxt]⟩
      have hlt := findIdx_append_lt (fun t => t.title == a.title) pre (a :: rest) hex
      have hcond :
          ((pre ++ a :: rest).findIdx (fun t => t.title == a.title) == pre.length) = false := by
        simp only [beq_eq_false_iff_ne, ne_eq]
        omega
      rw [List.enumFrom_cons, List.filter_cons]
      simp only [hcond, Bool.false_eq_true, if_false]
      rw [hsplit, hlen, uniqueByTitle_go rest (pre ++ [a])]
      rw [dedupAux, if_pos hmem]
      refine dedupAux_congr (fun t => ?_) rest
      simp only [List.map_append, List.map_cons, List.map_nil, List.mem_append,
        List.mem_cons, List.not_mem_nil, or_false]
      constructor
      · rintro (h | rfl)
        · exact h
        · exact hmem
      · exact fun h => Or.inl h
    · have hfalse : ∀ x ∈ pre, (fun t => t.title == a.title) x = false := by
        intro x hx
        simp only [beq_eq_false_iff_ne, ne_eq]
        exact fun hxt => hmem (List.mem_map.mpr ⟨x, hx, hxt⟩)
      have hidx : (pre ++ a :: rest).findIdx (fun t => t.title == a.title) = pre.length := by
        rw [findIdx_append_of_false _ _ _ hfalse]
        simp [List.findIdx_cons]
      have hcond :
          ((pre ++ a :: rest).findIdx (fun t => t.title == a.title) == pre.length) = true := by
        simp [hidx]
      rw [List.enumFrom_cons, List.filter_cons]
      simp only [hcond, if_true, List.map_cons]
      rw [hsplit, hlen, uniqueByTitle_go rest (pre ++ [a])]
      rw [dedupAux, if_neg hmem]
      refine congrArg (a :: ·) (dedupAux_congr (fun t => ?_) rest)
      simp only [List.map_append, List.map_cons, List.map_nil, List.mem_append,
        List.mem_cons, List.not_mem_nil, or_false]
      tauto

theorem uniqueByTitle_eq_dedupAux (l : List Article) :
    uniqueByTitle l = dedupAux [] l := by
  have h := uniqueByTitle_go l []
  simpa [uniqueByTitle, List.enum] using h

theorem mem_dedupAux {a : Article} :
    ∀ {seen : List String} {l : List Article},
      a ∈ dedupAux seen l → a ∈ l ∧ a.title ∉ seen
  | seen, [], h => by simp [dedupAux] at h
  | seen, b :: rest, h => by
    by_cases hb : b.title ∈ seen
    · rw [dedupAux, if_pos hb] at h
      have := mem_dedupAux h
      exact ⟨List.mem_cons_of_mem _ this.1, this.2⟩
    · rw [dedupAux, if_neg hb] at h
      rcases List.mem_cons.mp h with rfl | h2
      · exact ⟨List.mem_cons_self _ _, hb⟩
      · have := mem_dedupAux h2
        refine ⟨List.mem_cons_of_mem _ this.1, fun hs => this.2 ?_⟩
        exact List.mem_cons_of_mem _ hs

theorem dedupAux_pairwise :
    ∀ (seen : List String) (l : List Article),
      (dedupAux seen l).Pairwise (fun a b => a.title ≠ b.title)
  | _, [] => List.Pairwise.nil
  | seen, a :: rest => by
    by_cases ha : a.title ∈ seen
    · rw [dedupAux, if_pos ha]; exact dedupAux_pairwise seen rest
    · rw [dedupAux, if_neg ha]
      refine List.Pairwise.cons (fun b hb => ?_) (dedupAux_pairwise _ rest)
      have := (mem_dedupAux hb).2
      intro hab
      exact this (hab ▸ List.mem_cons_self _ _)

theorem title_mem_dedupAux {t : String} :
    ∀ {seen : List String} {l : List Article},
      (t ∈ (dedupAux seen l).map Article.title ↔ t ∈ l.map Article.title ∧ t ∉ seen)
  | seen, [] => by simp [dedupAux]
  | seen, a :: rest => by
    by_cases ha : a.title ∈ seen
    · rw [dedupAux, if_pos ha]
      rw [@title_mem_dedupAux t seen rest]
      simp only [List.map_cons, List.mem_cons]
      constructor
      · rintro ⟨h1, h2⟩; exact ⟨Or.inr h1, h2⟩
      · rintro ⟨h1 | h1, h2⟩
        · exact absurd (h1 ▸ ha) h2
        · exact ⟨h1, h2⟩
    · rw [dedupAux, if_neg ha]
      simp only [List.map_cons, List.mem_cons]
      rw [@title_mem_dedupAux t (a.title :: seen) rest]
      simp only [List.mem_cons]
      constructor
      · rintro (rfl | ⟨h1, h2⟩)
        · exact ⟨Or.inl rfl, ha⟩
        · exact ⟨Or.inr h1, fun hs => h2 (Or.inr hs)⟩
      · rintro ⟨rfl | h1, h2⟩
        · exact Or.inl rfl
        · by_cases hat : t = a.title
          · exact Or.inl hat
          · exact Or.inr ⟨h1, fun hs => by rcases hs with h | h; exact hat h; exact h2 h⟩

theorem dedupAux_append_distinct :
    ∀ {e : List Article} {seen : List String} (n : List Article),
      e.Pairwise (fun a b => a.title ≠ b.title) →
      (∀ a ∈ e, a.title ∉ seen) →
      dedupAux seen (e ++ n) = e ++ dedupAux (e.map Article.title ++ seen) n
  | [], seen, n, _, _ => by simp
  | a :: e', seen, n, he, hd => by
    have ha : a.title ∉ seen := hd a (List.mem_cons_self _ _)
    rw [List.cons_append, dedupAux, if_neg ha]
    have hd' : ∀ b ∈ e', b.title ∉ a.title :: seen := by
      intro b hb
      simp only [List.mem_cons]
      rintro (h | h)
      · exact (List.pairwise_cons.mp he).1 b hb h.symm
      · exact hd b (List.mem_cons_of_mem _ hb) h
    rw [dedupAux_append_distinct n (List.pairwise_cons.mp he).2 hd']
    refine congrArg (a :: ·) (congrArg (e' ++ ·) (dedupAux_congr (fun t => ?_) n))
    simp only [List.mem_append, List.mem_cons, List.map_cons]
    tauto

theorem dedupAux_eq_nil_of_subset :
    ∀ {seen : List String} {l : List Article},
      (∀ a ∈ l, a.title ∈ seen) → dedupAux seen l = []
  | _, [], _ => rfl
  | seen, a :: rest, h => by
    rw [dedupAux, if_pos (h a (List.mem_cons_self _ _))]
    exact dedupAux_eq_nil_of_subset (fun b hb => h b (List.mem_cons_of_mem _ hb))

theorem mem_dedupAux_append_cases {b : Article} :
    ∀ {seen : List String} {e n : List Article},
      b ∈ dedupAux seen (e ++ n) →
      b ∈ e ∨ (b.title ∉ seen ∧ b.title ∉ e.map Article.title)
  | seen, [], n, h => by
    right
    refine ⟨(mem_dedupAux h).2, ?_⟩
    simp
  | seen, a :: e', n, h => by
    by_cases ha : a.title ∈ seen
    · rw [List.cons_append, dedupAux, if_pos ha] at h
      rcases mem_dedupAux_append_cases h with h1 | ⟨h1, h2⟩
      · exact Or.inl (List.mem_cons_of_mem _ h1)
      · refine Or.inr ⟨h1, ?_⟩
        simp only [List.map_cons, List.mem_cons]
        rintro (h3 | h3)
        · exact h1 (h3 ▸ ha)
        · exact h2 h3
    · rw [List.cons_append, dedupAux, if_neg ha] at h
      rcases List.mem_cons.mp h with rfl | h2
      · exact Or.inl (List.mem_cons_self _ _)
      · rcases mem_dedupAux_append_cases h2 with h3 | ⟨h3, h4⟩
        · exact Or.inl (List.mem_cons_of_mem _ h3)
        · simp only [List.mem_cons] at h3
          push_neg at h3
          refine Or.inr ⟨h3.2, ?_⟩
          simp only [List.map_cons, List.mem_cons]
          rintro (h5 | h5)
          · exact h3.1 h5
          · exact h4 h5

theorem countP_title_le_one {t : String} :
    ∀ {l : List Article},
      l.Pairwise (fun a b => a.title ≠ b.title) →
      l.countP (fun a => a.title == t) ≤ 1
  | [], _ => by simp
  | a :: rest, h => by
    obtain ⟨h1, h2⟩ := List.pairwise_cons.mp h
    by_cases ha : a.title = t
    · rw [List.countP_cons]
      have hrest : rest.countP (fun a => a.title == t) = 0 := by
        rw [List.countP_eq_zero]
        intro b hb
        simp only [beq_iff_eq]
        exact fun hbt => h1 b hb (ha.trans hbt.symm)
      simp [hrest, ha]
    · rw [List.countP_cons]
      have : (a.title == t) = false := by simpa using ha
      simp only [this, Bool.false_eq_true, if_false, cond_false]
      simpa using countP_title_le_one h2

/-! ### Properties of the sort comparator -/

theorem articleLe_iff_of_ne {pd : String → Option Int} {a b : Article}
    (h : a.id ≠ b.id) : articleLe pd a b = true ↔ a.id < b.id := by
  unfold articleLe articleCmp localeCompare
  rw [if_pos h]
  by_cases hlt : a.id < b.id
  · simp [hlt]
  · rw [if_neg hlt, if_neg h]
    simp [hlt]

theorem articleLe_iff_of_eq {pd : String → Option Int} {a b : Article} {da db : Int}
    (h : a.id = b.id) (hda : pd a.pubDate = some da) (hdb : pd b.pubDate = some db) :
    articleLe pd a b = true ↔ db ≤ da := by
  unfold articleLe articleCmp
  rw [if_neg (by simp [h]), hdb, hda]
  simp [sub_nonpos]

theorem articleLe_total (pd : String → Option Int) (hpd : ∀ s, (pd s).isSome) :
    ∀ a b : Article, (articleLe pd a b || articleLe pd b a) = true := by
  intro a b
  obtain ⟨da, hda⟩ := Option.isSome_iff_exists.mp (hpd a.pubDate)
  obtain ⟨db, hdb⟩ := Option.isSome_iff_exists.mp (hpd b.pubDate)
  rw [Bool.or_eq_true]
  by_cases h : a.id = b.id
  · rw [articleLe_iff_of_eq h hda hdb, articleLe_iff_of_eq h.symm hdb hda]
    omega
  · rw [articleLe_iff_of_ne h, articleLe_iff_of_ne (Ne.symm h)]
    exact lt_or_gt_of_ne h

theorem articleLe_trans (pd : String → Option Int) (hpd : ∀ s, (pd s).isSome) :
    ∀ a b c : Article, articleLe pd a b = true → articleLe pd b c = true →
      articleLe pd a c = true := by
  intro a b c hab hbc
  obtain ⟨da, hda⟩ := Option.isSome_iff_exists.mp (hpd a.pubDate)
  obtain ⟨db, hdb⟩ := Option.isSome_iff_exists.mp (hpd b.pubDate)
  obtain ⟨dc, hdc⟩ := Option.isSome_iff_exists.mp (hpd c.pubDate)
  by_cases h1 : a.id = b.id <;> by_cases h2 : b.id = c.id
  · rw [articleLe_iff_of_eq h1 hda hdb] at hab
    rw [articleLe_iff_of_eq h2 hdb hdc] at hbc
    rw [articleLe_iff_of_eq (h1.trans h2) hda hdc]
    omega
  · rw [articleLe_iff_of_ne h2] at hbc
    have hac : a.id < c.id := h1 ▸ hbc
    rw [articleLe_iff_of_ne (ne_of_lt hac)]
    exact hac
  · rw [articleLe_iff_of_ne h1] at hab
    have hac : a.id < c.id := h2 ▸ hab
    rw [articleLe_iff_of_ne (ne_of_lt hac)]
    exact hac
  · rw [articleLe_iff_of_ne h1] at hab
    rw [articleLe_iff_of_ne h2] at hbc
    have hac : a.id < c.id := lt_trans hab hbc
    rw [articleLe_iff_of_ne (ne_of_lt hac)]
    exact hac

theorem articleLe_implies_claim {pd : String → Option Int} {a b : Article}
    (h : articleLe pd a b = true) :
    a.id ≤ b.id ∧ (a.id = b.id → ∀ da db, pd a.pubDate = some da →
      pd b.pubDate = some db → db ≤ da) := by
  by_cases hid : a.id = b.id
  · refine ⟨le_of_eq hid, fun _ da db hda hdb => ?_⟩
    exact (articleLe_iff_of_eq hid hda hdb).mp h
  · refine ⟨le_of_lt ((articleLe_iff_of_ne hid).mp h), fun he => absurd he hid⟩

/-! ### Run-log lemmas -/

theorem jsStartsWith_append (t r : String) : jsStartsWith (t ++ r) t = true := by
  unfold jsStartsWith
  rw [List.isPrefixOf_iff_prefix, String.data_append]
  exact List.prefix_append _ _

theorem eq_of_jsStartsWith {t r ts : String} (h : jsStartsWith (t ++ r) ts = true)
    (hlen : ts.length = t.length) : ts = t := by
  unfold jsStartsWith at h
  rw [List.isPrefixOf_iff_prefix, String.data_append] at h
  have htake := List.prefix_iff_eq_take.mp h
  have hl : ts.data.length = t.data.length := hlen
  rw [hl, List.take_left] at htake
  exact String.ext htake

theorem jsStartsWith_entry {t m ts : String} (hlen : ts.length = t.length) :
    jsStartsWith (t ++ ": " ++ m) ts = true ↔ ts = t := by
  rw [String.append_assoc]
  constructor
  · exact fun h => eq_of_jsStartsWith h hlen
  · rintro rfl
    exact jsStartsWith_append _ _

theorem entry_ne_empty {t m : String} (ht : t.length = 10) : t ++ ": " ++ m ≠ "" := by
  intro h
  have hdata := congrArg String.data h
  rw [String.append_assoc, String.data_append] at hdata
  have hlen := congrArg List.length hdata
  rw [List.length_append] at hlen
  have h0 : ("" : String).data.length = 0 := rfl
  have ht' : t.data.length = 10 := ht
  rw [h0] at hlen
  omega

theorem writeLog_preserves {t m : String} (hg : goodWrite (t, m)) {L : List String}
    (hE : EntryForm L) (hA : AtMostOnePerDate L) :
    EntryForm (writeLog t m L) ∧ AtMostOnePerDate (writeLog t m L) := by
  obtain ⟨ht, htrim⟩ := hg
  cases hfind : L.find? (fun line => jsStartsWith line t) with
  | none =>
    have hnone : ∀ l ∈ L, jsStartsWith l t = false := by
      intro l hl
      simpa using List.find?_eq_none.mp hfind l hl
    rw [writeLog, hfind]
    constructor
    · intro l hl
      rcases List.mem_append.mp hl with h | h
      · exact hE l h
      · exact ⟨t, m, (List.mem_singleton.mp h), ht⟩
    · intro ts hts
      rw [List.countP_append]
      by_cases hts_t : ts = t
      · subst hts_t
        have h0 : L.countP (fun l => jsStartsWith l ts) = 0 :=
          List.countP_eq_zero.mpr (fun l hl => by simp [hnone l hl])
        have h1 : List.countP (fun l => jsStartsWith l ts) [ts ++ ": " ++ m] ≤ 1 := by
          rw [List.countP_cons, List.countP_nil]
          split <;> omega
        omega
      · have h1 : List.countP (fun l => jsStartsWith l ts) [t ++ ": " ++ m] = 0 := by
          rw [List.countP_eq_zero]
          intro l hl
          rw [List.mem_singleton.mp hl]
          intro hstart
          exact hts_t ((jsStartsWith_entry (by rw [hts, ht])).mp hstart)
        rw [h1]
        simpa using hA ts hts
  | some line =>
    have hline_mem : line ∈ L := List.mem_of_find?_eq_some hfind
    have hline_start : jsStartsWith line t = true := by
      have h := List.find?_some hfind
      exact h
    obtain ⟨t', m', rfl, ht'⟩ := hE line hline_mem
    have htt' : t = t' := (jsStartsWith_entry (by rw [ht, ht'])).mp hline_start
    have hne : t' ++ ": " ++ m' ≠ "" := entry_ne_empty ht'
    have hred : writeLog t m L =
        List.map (fun l => if jsStartsWith l t then jsTrim (t ++ ": " ++ m ++ "\n") else l) L := by
      rw [writeLog, hfind]
      exact if_neg hne
    rw [hred]
    have hmap :
        ∀ l ∈ L, (if jsStartsWith l t then jsTrim (t ++ ": " ++ m ++ "\n") else l)
          = (if jsStartsWith l t then t ++ ": " ++ m else l) := by
      intro l _
      rw [htrim]
    constructor
    · intro l' hl'
      obtain ⟨l, hl, rfl⟩ := List.mem_map.mp hl'
      by_cases hs : jsStartsWith l t = true
      · rw [if_pos hs, htrim]
        exact ⟨t, m, rfl, ht⟩
      · rw [if_neg hs]
        exact hE l hl
    · intro ts hts
      rw [List.countP_map]
      have hcong :
          L.countP ((fun l => jsStartsWith l ts) ∘
            (fun l => if jsStartsWith l t then jsTrim (t ++ ": " ++ m ++ "\n") else l))
          = L.countP (fun l => jsStartsWith l ts) := by
        refine List.countP_congr (fun l hl => ?_)
        obtain ⟨u, v, rfl, hu⟩ := hE l hl
        simp only [Function.comp]
        by_cases hs : jsStartsWith (u ++ ": " ++ v) t = true
        · have hut : t = u := (jsStartsWith_entry (by rw [ht, hu])).mp hs
          rw [if_pos hs, htrim]
          subst hut
          have hl : ts.length = t.length := by rw [hts, ht]
          rw [jsStartsWith_entry hl, jsStartsWith_entry hl]
        · rw [if_neg hs]
      rw [hcong]
      exact hA ts hts

theorem applyLog_invariant_aux :
    ∀ (ws : List (String × String)) (L : List String),
      (∀ p ∈ ws, goodWrite p) → EntryForm L → AtMostOnePerDate L →
      EntryForm (ws.foldl (fun lines p => writeLog p.1 p.2 lines) L)
      ∧ AtMostOnePerDate (ws.foldl (fun lines p => writeLog p.1 p.2 lines) L)
  | [], L, _, hE, hA => ⟨hE, hA⟩
  | p :: ws, L, hws, hE, hA => by
    have hp := hws p (List.mem_cons_self _ _)
    have step := writeLog_preserves hp hE hA
    exact applyLog_invariant_aux ws _ (fun q hq => hws q (List.mem_cons_of_mem _ hq))
      step.1 step.2

theorem writeLog_append_of_fresh (t m : String) (L : List String)
    (h : ∀ l ∈ L, jsStartsWith l t = false) :
    writeLog t m L = L ++ [t ++ ": " ++ m] := by
  have hfind : L.find? (fun line => jsStartsWith line t) = none :=
    List.find?_eq_none.mpr (fun l hl => by simp [h l hl])
  rw [writeLog, hfind]

theorem writeLog_replace (t m : String) (hg : goodWrite (t, m))
    {L : List String} (hE : EntryForm L) (hA : AtMostOnePerDate L)
    {l₁ l₂ : List String} {old : String} (hL : L = l₁ ++ old :: l₂)
    (hold : jsStartsWith old t = true) :
    writeLog t m L = l₁ ++ (t ++ ": " ++ m) :: l₂ := by
  obtain ⟨ht, htrim⟩ := hg
  have hcount : L.countP (fun l => jsStartsWith l t) ≤ 1 := hA t ht
  subst hL
  rw [List.countP_append, List.countP_cons, hold, if_pos rfl] at hcount
  have hc₁ : l₁.countP (fun l => jsStartsWith l t) = 0 := by omega
  have hc₂ : l₂.countP (fun l => jsStartsWith l t) = 0 := by omega
  have hl₁ : ∀ l ∈ l₁, jsStartsWith l t = false := by
    intro l hl
    simpa using List.countP_eq_zero.mp hc₁ l hl
  have hl₂ : ∀ l ∈ l₂, jsStartsWith l t = false := by
    intro l hl
    simpa using List.countP_eq_zero.mp hc₂ l hl
  have hfind : (l₁ ++ old :: l₂).find? (fun line => jsStartsWith line t) = some old := by
    rw [List.find?_append]
    have h₁ : l₁.find? (fun line => jsStartsWith line t) = none :=
      List.find?_eq_none.mpr (fun l hl => by simp [hl₁ l hl])
    have h₂ : List.find? (fun line => jsStartsWith line t) (old :: l₂) = some old :=
      @List.find?_cons_of_pos String (fun line => jsStartsWith line t) old l₂ hold
    rw [h₁, h₂]
    rfl
  have hold_mem : old ∈ l₁ ++ old :: l₂ := by simp
  obtain ⟨u, v, huv, hu⟩ := hE old hold_mem
  have hold_ne : old ≠ "" := huv ▸ entry_ne_empty hu
  have hred : writeLog t m (l₁ ++ old :: l₂) =
      List.map (fun l => if jsStartsWith l t then jsTrim (t ++ ": " ++ m ++ "\n") else l)
        (l₁ ++ old :: l₂) := by
    rw [writeLog, hfind]
    exact if_neg hold_ne
  rw [hred, List.map_append, List.map_cons]
  have hmap₁ : l₁.map
      (fun l => if jsStartsWith l t then jsTrim (t ++ ": " ++ m ++ "\n") else l) = l₁ := by
    have h : l₁.map
        (fun l => if jsStartsWith l t then jsTrim (t ++ ": " ++ m ++ "\n") else l)
        = l₁.map id := List.map_congr_left (fun l hl => by simp [hl₁ l hl])
    rw [h, List.map_id]
  have hmap₂ : l₂.map
      (fun l => if jsStartsWith l t then jsTrim (t ++ ": " ++ m ++ "\n") else l) = l₂ := by
    have h : l₂.map
        (fun l => if jsStartsWith l t then jsTrim (t ++ ": " ++ m ++ "\n") else l)
        = l₂.map id := List.map_congr_left (fun l hl => by simp [hl₂ l hl])
    rw [h, List.map_id]
  rw [hmap₁, hmap₂, if_pos hold, htrim]

/-! ### Fold lemmas for the source loop -/

theorem sourceStep_snd_mono (pd : String → Option Int) (now : Int) (nowISO : String) :
    ∀ (fetches : List (RssSource × NetResult)) (init : List Article × List String)
      (e : String), e ∈ init.2 → e ∈ (fetches.foldl (sourceStep pd now nowISO) init).2
  | [], _, _, he => he
  | sn :: fetches, init, e, he => by
    rw [List.foldl_cons]
    refine sourceStep_snd_mono pd now nowISO fetches _ e ?_
    cases hr : runSource pd now nowISO sn.1 sn.2 with
    | error msg => simp only [sourceStep, hr]; exact List.mem_append_left _ he
    | ok arts => simpa only [sourceStep, hr] using he

theorem error_mem_foldl (pd : String → Option Int) (now : Int) (nowISO : String)
    (s : RssSource) (n : NetResult) (msg : String)
    (herr : runSource pd now nowISO s n = .error msg) :
    ∀ (fetches : List (RssSource × NetResult)) (init : List Article × List String),
      (s, n) ∈ fetches →
      (s.title ++ " (" ++ msg ++ ")") ∈ (fetches.foldl (sourceStep pd now nowISO) init).2
  | [], _, hmem => by simp at hmem
  | sn :: fetches, init, hmem => by
    rw [List.foldl_cons]
    rcases List.mem_cons.mp hmem with heq | hmem2
    · refine sourceStep_snd_mono pd now nowISO fetches _ _ ?_
      rw [← heq]
      simp only [sourceStep, herr]
      exact List.mem_append_right _ (List.mem_singleton.mpr rfl)
    · exact error_mem_foldl pd now nowISO s n msg herr fetches _ hmem2

theorem error_mem_processSources (pd : String → Option Int) (now : Int) (nowISO : String)
    {s : RssSource} {n : NetResult} {msg : String}
    (herr : runSource pd now nowISO s n = .error msg)
    {fetches : List (RssSource × NetResult)} (hmem : (s, n) ∈ fetches) :
    (s.title ++ " (" ++ msg ++ ")") ∈ (processSources pd now nowISO fetches).2 :=
  error_mem_foldl pd now nowISO s n msg herr fetches ([], []) hmem

/-! ### Title transfer through sort and merge -/

theorem title_mem_sortArticles (pd : String → Option Int) (l : List Article) (t : String) :
    t ∈ (sortArticles pd l).map Article.title ↔ t ∈ l.map Article.title :=
  ((List.mergeSort_perm l (articleLe pd)).map Article.title).mem_iff

theorem title_mem_mergeAndDedup (e n : List Article) (t : String) :
    t ∈ (mergeAndDedup e n).map Article.title ↔ t ∈ (e ++ n).map Article.title := by
  rw [mergeAndDedup, uniqueByTitle_eq_dedupAux, title_mem_dedupAux]
  simp

theorem ceilDays_mul (k : Nat) : ceilDays (k * msPerDay) = k := by
  have hm : msPerDay = 86400000 := by norm_num [msPerDay]
  rw [ceilDays, hm]
  omega

/-! ### Claim theorems -/

/-- C1: for a duplicate-free existing corpus, the merge step keeps every
existing article (in order, ahead of the new batch), adds exactly those
new articles whose title appears neither in the existing corpus nor
earlier in the new batch (`dedupAux` keeps first occurrences), and on a
title collision keeps the existing record and drops the colliding new
one. -/
theorem merge_retains_and_adds (e n : List Article)
    (he : e.Pairwise (fun a b => a.title ≠ b.title)) :
    mergeAndDedup e n = e ++ dedupAux (e.map Article.title) n
    ∧ (∀ a ∈ e, a ∈ mergeAndDedup e n)
    ∧ (∀ b ∈ n, b.title ∉ e.map Article.title →
        b.title ∈ (mergeAndDedup e n).map Article.title)
    ∧ (∀ a ∈ e, ∀ b ∈ n, a.title = b.title → b ∉ e → b ∉ mergeAndDedup e n) := by
  have h1 : mergeAndDedup e n = e ++ dedupAux (e.map Article.title) n := by
    rw [mergeAndDedup, uniqueByTitle_eq_dedupAux,
      dedupAux_append_distinct n he (by simp)]
    exact congrArg (e ++ ·) (dedupAux_congr (by simp) n)
  refine ⟨h1, ?_, ?_, ?_⟩
  · intro a ha
    rw [h1]
    exact List.mem_append_left _ ha
  · intro b hb _
    rw [title_mem_mergeAndDedup]
    exact List.mem_map.mpr ⟨b, List.mem_append_right _ hb, rfl⟩
  · intro a ha b hb htitle hbe hmem
    rw [h1] at hmem
    rcases List.mem_append.mp hmem with h | h
    · exact hbe h
    · exact (mem_dedupAux h).2 (List.mem_map.mpr ⟨a, ha, htitle⟩)

/-- C1 witness: the theorem applied to the corpus `[artX]` and the
colliding fresh batch `[artY]` (same title, changed description). -/
theorem merge_retains_and_adds_witness :
    ([artX].Pairwise (fun a b => a.title ≠ b.title))
    ∧ (mergeAndDedup [artX] [artY] = [artX] ++ dedupAux ([artX].map Article.title) [artY]
       ∧ (∀ a ∈ [artX], a ∈ mergeAndDedup [artX] [artY])
       ∧ (∀ b ∈ [artY], b.title ∉ [artX].map Article.title →
           b.title ∈ (mergeAndDedup [artX] [artY]).map Article.title)
       ∧ (∀ a ∈ [artX], ∀ b ∈ [artY], a.title = b.title → b ∉ [artX] →
           b ∉ mergeAndDedup [artX] [artY])) :=
  ⟨by simp, merge_retains_and_adds [artX] [artY] (by simp)⟩

/-- C2: the corpus written by a run — merge, title dedup, then sort —
never holds two articles with the same title. -/
theorem corpus_titles_unique (pd : String → Option Int) (e n : List Article) :
    (sortArticles pd (mergeAndDedup e n)).Pairwise (fun a b => a.title ≠ b.title) := by
  have h : (mergeAndDedup e n).Pairwise (fun a b => a.title ≠ b.title) := by
    rw [mergeAndDedup, uniqueByTitle_eq_dedupAux]
    exact dedupAux_pairwise [] (e ++ n)
  exact (List.Perm.pairwise_iff (fun hxy => Ne.symm hxy)
    (List.mergeSort_perm (mergeAndDedup e n) (articleLe pd))).mpr h

/-- C7: the merge-and-dedup step is idempotent — feeding its own output
back as the existing corpus with the same batch changes nothing. -/
theorem merge_idempotent (C A : List Article) :
    mergeAndDedup (mergeAndDedup C A) A = mergeAndDedup C A := by
  have hM : mergeAndDedup C A = dedupAux [] (C ++ A) := uniqueByTitle_eq_dedupAux _
  have hpair : (mergeAndDedup C A).Pairwise (fun a b => a.title ≠ b.title) := by
    rw [hM]; exact dedupAux_pairwise _ _
  rw [mergeAndDedup, uniqueByTitle_eq_dedupAux,
    dedupAux_append_distinct A hpair (by simp)]
  have hsub : ∀ b ∈ A, b.title ∈ (mergeAndDedup C A).map Article.title ++ [] := by
    intro b hb
    rw [List.append_nil, hM, title_mem_dedupAux]
    refine ⟨List.mem_map.mpr ⟨b, List.mem_append_right _ hb, rfl⟩, by simp⟩
  rw [dedupAux_eq_nil_of_subset hsub, List.append_nil]

/-- C10: a feed item with a missing or empty title is kept and mapped to
an article titled `""`; per-source dedup leaves at most one empty-titled
article per batch; and once the corpus holds an empty-titled article,
every empty-titled article of the merged corpus is that existing one (all
later empty-titled fetches are dropped by the title dedup). -/
theorem emptyTitle_behavior :
    (∀ (s : RssSource) (nowISO : String) (item : FeedItem),
      (item.title = none ∨ item.title = some "") →
      (feedItemToArticle s nowISO item).title = ""
      ∧ ∀ items : List FeedItem, item ∈ items →
          feedItemToArticle s nowISO item ∈ items.map (feedItemToArticle s nowISO))
    ∧ (∀ l : List Article, (uniqueByTitle l).countP (fun a => a.title == "") ≤ 1)
    ∧ (∀ (e n : List Article) (a : Article), a ∈ e → a.title = "" →
        ∀ b ∈ mergeAndDedup e n, b.title = "" → b ∈ e) := by
  refine ⟨?_, ?_, ?_⟩
  · intro s nowISO item htitle
    constructor
    · rcases htitle with h | h <;> simp [feedItemToArticle, jsOrStr, h]
    · intro items hitem
      exact List.mem_map.mpr ⟨item, hitem, rfl⟩
  · intro l
    refine countP_title_le_one ?_
    rw [uniqueByTitle_eq_dedupAux]
    exact dedupAux_pairwise _ _
  · intro e n a ha hat b hb hbt
    rw [mergeAndDedup, uniqueByTitle_eq_dedupAux] at hb
    rcases mem_dedupAux_append_cases hb with h | ⟨_, h⟩
    · exact h
    · exact absurd (List.mem_map.mpr ⟨a, ha, hat.trans hbt.symm⟩) h

/-- C10 witness: the theorem applied to a titleless feed item, a batch
with two empty-titled articles, and a corpus already holding one. -/
theorem emptyTitle_behavior_witness :
    (feedItemToArticle srcA "2024-01-02" {}).title = ""
    ∧ (uniqueByTitle [artEmpty, artEmptyB]).countP (fun a => a.title == "") ≤ 1
    ∧ (∀ b ∈ mergeAndDedup [artEmpty] [artEmptyB], b.title = "" → b ∈ [artEmpty]) :=
  ⟨(emptyTitle_behavior.1 srcA "2024-01-02" {} (Or.inl rfl)).1,
   emptyTitle_behavior.2.1 [artEmpty, artEmptyB],
   fun b hb hbt =>
     emptyTitle_behavior.2.2 [artEmpty] [artEmptyB] artEmpty (by simp) rfl b hb hbt⟩

/-- C3: for a date valuation under which every `pubDate` parses, the
written corpus satisfies, for every pair of positions (hence every
adjacent pair): ids non-decreasing under the modelled locale comparison,
and publish dates non-increasing within equal ids; moreover the sort is
stable (articles tied under the comparator keep their pre-sort relative
order).  Determinism across runs is inherent: the model is a pure
function of its input. -/
theorem corpus_sorted (pd : String → Option Int) (hpd : ∀ s, (pd s).isSome)
    (l : List Article) :
    (sortArticles pd l).Pairwise (fun a b =>
      a.id ≤ b.id ∧ (a.id = b.id → ∀ da db, pd a.pubDate = some da →
        pd b.pubDate = some db → db ≤ da))
    ∧ (∀ a b : Article, [a, b].Sublist l → articleLe pd a b = true →
        articleLe pd b a = true → [a, b].Sublist (sortArticles pd l)) := by
  constructor
  · have hs := List.sorted_mergeSort (articleLe_trans pd hpd) (articleLe_total pd hpd) l
    exact hs.imp (fun h => articleLe_implies_claim h)
  · intro a b hsub hab _
    exact List.pair_sublist_mergeSort (articleLe_trans pd hpd) (articleLe_total pd hpd)
      hab hsub

/-- C3 witness: the theorem applied to the total valuation `pdZero` and a
two-article corpus sharing one id. -/
theorem corpus_sorted_witness :
    (∀ s, (pdZero s).isSome)
    ∧ ((sortArticles pdZero [artY, artX]).Pairwise (fun a b =>
        a.id ≤ b.id ∧ (a.id = b.id → ∀ da db, pdZero a.pubDate = some da →
          pdZero b.pubDate = some db → db ≤ da))
       ∧ (∀ a b : Article, [a, b].Sublist [artY, artX] → articleLe pdZero a b = true →
          articleLe pdZero b a = true → [a, b].Sublist (sortArticles pdZero [artY, artX]))) :=
  ⟨fun _ => rfl, corpus_sorted pdZero (fun _ => rfl) [artY, artX]⟩

/-- C5: `filter_latest` retains an article iff its `pubDate` parses and
the absolute distance to now, rounded up to whole days, is at most the
window; an article dated exactly `N` days before now is retained, one
dated `N + 1` days before now is excluded, and an unparsable `pubDate` is
excluded. -/
theorem filter_latest_spec (pd : String → Option Int) (now : Int) (a : Article) (N : Nat) :
    (filter_latest pd now a N = true ↔
      ∃ d, pd a.pubDate = some d ∧ ceilDays (now - d).natAbs ≤ N)
    ∧ (∀ d, pd a.pubDate = some d → now - d = (N : Int) * (msPerDay : Int) →
        filter_latest pd now a N = true)
    ∧ (∀ d, pd a.pubDate = some d → now - d = ((N : Int) + 1) * (msPerDay : Int) →
        filter_latest pd now a N = false)
    ∧ (pd a.pubDate = none → filter_latest pd now a N = false) := by
  have habs : ∀ k : Nat, ((k : Int) * (msPerDay : Int)).natAbs = k * msPerDay := by
    intro k
    rw [← Nat.cast_mul, Int.natAbs_ofNat]
  refine ⟨?_, ?_, ?_, ?_⟩
  · cases h : pd a.pubDate with
    | none => simp [filter_latest, h]
    | some d => simp [filter_latest, h]
  · intro d hd hdiff
    simp only [filter_latest, hd, hdiff, decide_eq_true_eq]
    rw [habs N, ceilDays_mul]
  · intro d hd hdiff
    have hcast : ((N : Int) + 1) * (msPerDay : Int) = ((N + 1 : Nat) : Int) * (msPerDay : Int) := by
      push_cast
      ring
    simp only [filter_latest, hd, hdiff, hcast, decide_eq_false_iff_not]
    rw [habs (N + 1), ceilDays_mul]
    omega
  · intro h
    simp [filter_latest, h]

/-- C5 witness: the theorem applied at a concrete valuation, time, and
window. -/
theorem filter_latest_spec_witness :
    (filter_latest pdZero (2 * (msPerDay : Int)) artX 2 = true ↔
      ∃ d, pdZero artX.pubDate = some d ∧ ceilDays (2 * (msPerDay : Int) - d).natAbs ≤ 2)
    ∧ (∀ d, pdZero artX.pubDate = some d →
        2 * (msPerDay : Int) - d = (2 : Nat) * (msPerDay : Int) →
        filter_latest pdZero (2 * (msPerDay : Int)) artX 2 = true)
    ∧ (∀ d, pdZero artX.pubDate = some d →
        2 * (msPerDay : Int) - d = ((2 : Nat) + 1) * (msPerDay : Int) →
        filter_latest pdZero (2 * (msPerDay : Int)) artX 2 = false)
    ∧ (pdZero artX.pubDate = none →
        filter_latest pdZero (2 * (msPerDay : Int)) artX 2 = false) :=
  filter_latest_spec pdZero (2 * (msPerDay : Int)) artX 2

/-- `fetchRSS` written out by cases on the emptiness of the fetched
batch. -/
theorem fetchRSS_eq (pd : String → Option Int) (now : Int) (nowISO : String)
    (existing : List Article) (fetches : List (RssSource × NetResult)) :
    fetchRSS pd now nowISO existing fetches =
      if (processSources pd now nowISO fetches).1.isEmpty then
        { exitCode := 1
          written := none
          logMessage := "Critical error: No articles were fetched from any source" }
      else
        { exitCode := 0
          written := some (sortArticles pd
            (mergeAndDedup existing (processSources pd now nowISO fetches).1))
          logMessage :=
            if (processSources pd now nowISO fetches).2.isEmpty then
              "All sources fetched successfully"
            else "Failed sources: " ++
              String.intercalate "; " (processSources pd now nowISO fetches).2 } := rfl

/-- C4 (amended): in the feed run (`fetchRSS`), fetching zero articles is
exactly the condition under which the run exits 1 and the corpus is not
written; but the special run (`fetchSpecialRSS`) always writes the merged
corpus and finishes with exit code 0, even when zero articles were
fetched. -/
theorem zeroFetched_run_behavior (pd : String → Option Int) (now : Int) (nowISO : String)
    (existing : List Article) (fetches : List (RssSource × NetResult)) :
    ((fetchRSS pd now nowISO existing fetches).written = none ↔
      (processSources pd now nowISO fetches).1 = [])
    ∧ ((fetchRSS pd now nowISO existing fetches).exitCode = 1 ↔
      (processSources pd now nowISO fetches).1 = [])
    ∧ (∀ (cy cm : Int) (existing2 : List Article) (sources : List RssSource)
        (fetch : String → Option (List RawItem)),
        (fetchSpecialRSS pd now nowISO cy cm existing2 sources fetch).exitCode = 0
        ∧ (fetchSpecialRSS pd now nowISO cy cm existing2 sources fetch).written =
            some (sortArticles pd (mergeAndDedup existing2
              (specialBatch pd now nowISO cy cm sources fetch)))) := by
  refine ⟨?_, ?_, fun cy cm existing2 sources fetch => ⟨rfl, rfl⟩⟩
  · rw [fetchRSS_eq]
    cases hp : (processSources pd now nowISO fetches).1 with
    | nil => simp
    | cons a t => simp
  · rw [fetchRSS_eq]
    cases hp : (processSources pd now nowISO fetches).1 with
    | nil => simp
    | cons a t => simp

/-- C4 counterexample: a special run in which every generated URL fails
(zero articles fetched) still finishes with exit code 0 and writes the
corpus file — rewriting the one-article corpus — contradicting "exits
non-zero and the corpus file is left untouched". -/
theorem zeroFetched_special_counterexample :
    specialBatch pdZero 0 "iso" 2024 5 [srcSpecial] (fun _ => none) = []
    ∧ (fetchSpecialRSS pdZero 0 "iso" 2024 5 [artX] [srcSpecial] (fun _ => none)).exitCode = 0
    ∧ (fetchSpecialRSS pdZero 0 "iso" 2024 5 [artX] [srcSpecial] (fun _ => none)).written
        = some [artX] := by
  have hbatch : specialBatch pdZero 0 "iso" 2024 5 [srcSpecial] (fun _ => none) = [] := rfl
  have hout : fetchSpecialRSS pdZero 0 "iso" 2024 5 [artX] [srcSpecial] (fun _ => none) =
      { exitCode := 0
        written := some (sortArticles pdZero (mergeAndDedup [artX]
          (specialBatch pdZero 0 "iso" 2024 5 [srcSpecial] (fun _ => none))))
        logMessage := "" } := rfl
  refine ⟨hbatch, by rw [hout], ?_⟩
  rw [hout, hbatch]
  have hm : mergeAndDedup [artX] [] = [artX] := rfl
  rw [hm]
  simp [sortArticles]

/-- C6 (amended): a failing source is caught without aborting the batch
and recorded as `"<source title> (No feed or items found)"` — the generic
message, not the underlying reason, since `fetchWithTimeout` swallows the
actual error (e.g. the timeout) and only prints it to the console;
processing continues with the next source, and when at least one article
was fetched the run exits 0, writes the merged corpus (which contains
every fetched article's title), and the run-log message lists each failed
source's title. -/
theorem failedSource_isolation (pd : String → Option Int) (now : Int) (nowISO : String)
    (existing : List Article) (fetches : List (RssSource × NetResult))
    (s : RssSource) (emsg : String)
    (hmem : (s, NetResult.failed emsg) ∈ fetches)
    (hne : (processSources pd now nowISO fetches).1 ≠ []) :
    (fetchRSS pd now nowISO existing fetches).exitCode = 0
    ∧ (fetchRSS pd now nowISO existing fetches).written =
        some (sortArticles pd
          (mergeAndDedup existing (processSources pd now nowISO fetches).1))
    ∧ (s.title ++ " (No feed or items found)") ∈ (processSources pd now nowISO fetches).2
    ∧ (fetchRSS pd now nowISO existing fetches).logMessage =
        "Failed sources: " ++ String.intercalate "; " (processSources pd now nowISO fetches).2
    ∧ (∀ a ∈ (processSources pd now nowISO fetches).1,
        a.title ∈ ((fetchRSS pd now nowISO existing fetches).written.getD []).map
          Article.title) := by
  have herr : runSource pd now nowISO s (NetResult.failed emsg) =
      .error "No feed or items found" := rfl
  have hmem2 : (s.title ++ " (" ++ "No feed or items found" ++ ")") ∈
      (processSources pd now nowISO fetches).2 :=
    error_mem_processSources pd now nowISO herr hmem
  have hstr : s.title ++ " (No feed or items found)" =
      s.title ++ " (" ++ "No feed or items found" ++ ")" := by
    rw [String.append_assoc, String.append_assoc]
    rfl
  have hie : (processSources pd now nowISO fetches).1.isEmpty = false := by
    cases hp : (processSources pd now nowISO fetches).1 with
    | nil => exact absurd hp hne
    | cons a t => rfl
  have hie2 : (processSources pd now nowISO fetches).2.isEmpty = false := by
    cases hp : (processSources pd now nowISO fetches).2 with
    | nil => rw [hp] at hmem2; cases hmem2
    | cons a t => rfl
  have hw : (fetchRSS pd now nowISO existing fetches).written =
      some (sortArticles pd
        (mergeAndDedup existing (processSources pd now nowISO fetches).1)) := by
    rw [fetchRSS_eq, hie]
    rfl
  refine ⟨?_, hw, hstr ▸ hmem2, ?_, ?_⟩
  · rw [fetchRSS_eq, hie]
    rfl
  · rw [fetchRSS_eq, hie, hie2]
    rfl
  · intro a ha
    rw [hw]
    simp only [Option.getD_some]
    rw [title_mem_sortArticles, title_mem_mergeAndDedup]
    exact List.mem_map.mpr ⟨a, List.mem_append_right _ ha, rfl⟩

/-- C6 witness: the amended theorem applied to the concrete run
`feedFetches` in which source B times out and source A succeeds. -/
theorem failedSource_isolation_witness :
    ((srcB, NetResult.failed "Timeout") ∈ feedFetches
      ∧ (processSources pdZero 0 "2024-01-02" feedFetches).1 ≠ [])
    ∧ ((fetchRSS pdZero 0 "2024-01-02" [artX] feedFetches).exitCode = 0
       ∧ (fetchRSS pdZero 0 "2024-01-02" [artX] feedFetches).written =
           some (sortArticles pdZero
             (mergeAndDedup [artX] (processSources pdZero 0 "2024-01-02" feedFetches).1))
       ∧ (srcB.title ++ " (No feed or items found)") ∈
           (processSources pdZero 0 "2024-01-02" feedFetches).2
       ∧ (fetchRSS pdZero 0 "2024-01-02" [artX] feedFetches).logMessage =
           "Failed sources: " ++
             String.intercalate "; " (processSources pdZero 0 "2024-01-02" feedFetches).2
       ∧ (∀ a ∈ (processSources pdZero 0 "2024-01-02" feedFetches).1,
           a.title ∈ ((fetchRSS pdZero 0 "2024-01-02" [artX] feedFetches).written.getD
             []).map Article.title)) :=
  ⟨⟨by decide, by decide⟩,
   failedSource_isolation pdZero 0 "2024-01-02" [artX] feedFetches srcB "Timeout"
     (by decide) (by decide)⟩

/-- C6 counterexample: when source B's fetch rejects with `Timeout`, the
recorded failure string and the run-log message carry only the generic
`"No feed or items found"` — not the actual timeout reason the claim
requires. -/
theorem failedSource_generic_message_counterexample :
    (processSources pdZero 0 "2024-01-02" feedFetches).2 =
      ["Journal B (No feed or items found)"]
    ∧ "Journal B (No feed or items found)" ≠ "Journal B (Timeout)"
    ∧ (fetchRSS pdZero 0 "2024-01-02" [] feedFetches).logMessage =
        "Failed sources: Journal B (No feed or items found)" := by
  refine ⟨by decide, by decide, ?_⟩
  rw [fetchRSS_eq]
  decide

/-- C8: starting from an absent (empty) log file, after any sequence of
well-formed writes the log holds at most one line per calendar date; a
further write on a date with no line appends the single line
`<date>: <message>`, and a write on a date that already has a line
replaces exactly that line, leaving every other line unchanged. -/
theorem runLog_daily (ws : List (String × String)) (t m : String)
    (hws : ∀ p ∈ ws, goodWrite p) (htm : goodWrite (t, m)) :
    AtMostOnePerDate (applyLog ws)
    ∧ ((∀ l ∈ applyLog ws, jsStartsWith l t = false) →
        writeLog t m (applyLog ws) = applyLog ws ++ [t ++ ": " ++ m])
    ∧ (∀ l₁ old l₂, applyLog ws = l₁ ++ old :: l₂ → jsStartsWith old t = true →
        writeLog t m (applyLog ws) = l₁ ++ (t ++ ": " ++ m) :: l₂) := by
  have hEA : EntryForm (applyLog ws) ∧ AtMostOnePerDate (applyLog ws) := by
    refine applyLog_invariant_aux ws [] hws ?_ ?_
    · intro l hl
      exact absurd hl (List.not_mem_nil l)
    · intro ts _
      simp
  refine ⟨hEA.2, ?_, ?_⟩
  · exact writeLog_append_of_fresh t m _
  · intro l₁ old l₂ hL hold
    exact writeLog_replace t m htm hEA.1 hEA.2 hL hold

/-- C8 witness: the theorem applied to a two-day log and a repeated write
on the second day. -/
theorem runLog_daily_witness :
    (∀ p ∈ [(("2024-05-06", "All sources fetched successfully") : String × String),
        ("2024-05-07", "x")], goodWrite p)
    ∧ goodWrite ("2024-05-07", "Failed sources: Journal B (No feed or items found)")
    ∧ (AtMostOnePerDate (applyLog [("2024-05-06", "All sources fetched successfully"),
        ("2024-05-07", "x")])
       ∧ ((∀ l ∈ applyLog [("2024-05-06", "All sources fetched successfully"),
            ("2024-05-07", "x")], jsStartsWith l "2024-05-07" = false) →
          writeLog "2024-05-07" "Failed sources: Journal B (No feed or items found)"
            (applyLog [("2024-05-06", "All sources fetched successfully"),
              ("2024-05-07", "x")])
          = applyLog [("2024-05-06", "All sources fetched successfully"),
              ("2024-05-07", "x")]
            ++ ["2024-05-07" ++ ": " ++ "Failed sources: Journal B (No feed or items found)"])
       ∧ (∀ l₁ old l₂,
          applyLog [("2024-05-06", "All sources fetched successfully"), ("2024-05-07", "x")]
            = l₁ ++ old :: l₂ →
          jsStartsWith old "2024-05-07" = true →
          writeLog "2024-05-07" "Failed sources: Journal B (No feed or items found)"
            (applyLog [("2024-05-06", "All sources fetched successfully"),
              ("2024-05-07", "x")])
          = l₁ ++ ("2024-05-07" ++ ": "
              ++ "Failed sources: Journal B (No feed or items found)") :: l₂)) := by
  have hws : ∀ p ∈ [(("2024-05-06", "All sources fetched successfully") : String × String),
      ("2024-05-07", "x")], goodWrite p := by
    intro p hp
    rcases List.mem_cons.mp hp with rfl | hp
    · exact ⟨by decide, by decide⟩
    · rcases List.mem_cons.mp hp with rfl | hp
      · exact ⟨by decide, by decide⟩
      · exact absurd hp (List.not_mem_nil p)
  have htm : goodWrite ("2024-05-07", "Failed sources: Journal B (No feed or items found)") :=
    ⟨by decide, by decide⟩
  exact ⟨hws, htm,
    runLog_daily [("2024-05-06", "All sources fetched successfully"), ("2024-05-07", "x")]
      "2024-05-07" "Failed sources: Journal B (No feed or items found)" hws htm⟩

/-- C9: for a valid current month, the sliding window is exactly the
current month and the two prior months, with the year decremented when
the month index wraps below 1; every generated month index stays in
`[1, 12]`; one listing URL is generated per window entry; and the special
run's written corpus merges the per-URL results of all generated URLs
(concatenated across the window in generation order) with the existing
corpus before the title dedup. -/
theorem slidingWindow_urls (y m : Int) (h1 : 1 ≤ m) (h2 : m ≤ 12) :
    monthWindow y m = [(y, m),
      (if 2 ≤ m then (y, m - 1) else (y - 1, m + 11)),
      (if 3 ≤ m then (y, m - 2) else (y - 1, m + 10))]
    ∧ (∀ p ∈ monthWindow y m, 1 ≤ p.2 ∧ p.2 ≤ 12)
    ∧ genUrls y m = (monthWindow y m).map (fun p => issueListUrl p.1 p.2)
    ∧ (genUrls y m).length = 3
    ∧ (∀ (pd : String → Option Int) (now : Int) (nowISO : String)
        (existing : List Article) (sources : List RssSource)
        (fetch : String → Option (List RawItem)),
        (fetchSpecialRSS pd now nowISO y m existing sources fetch).written =
          some (sortArticles pd (mergeAndDedup existing
            (specialBatch pd now nowISO y m sources fetch)))) := by
  have hw : monthWindow y m = [(y, m),
      (if 2 ≤ m then (y, m - 1) else (y - 1, m + 11)),
      (if 3 ≤ m then (y, m - 2) else (y - 1, m + 10))] := by
    have hr : List.range 3 = [0, 1, 2] := rfl
    rw [monthWindow, hr]
    simp only [List.map_cons, List.map_nil]
    have c0 : Int.ofNat 0 = 0 := rfl
    have c1 : Int.ofNat 1 = 1 := rfl
    have c2 : Int.ofNat 2 = 2 := rfl
    rw [c0, c1, c2, sub_zero]
    rw [if_neg (by omega : ¬ m < 1)]
    by_cases hm2 : 2 ≤ m
    · rw [if_neg (by omega : ¬ m - 1 < 1), if_pos hm2]
      by_cases hm3 : 3 ≤ m
      · rw [if_neg (by omega : ¬ m - 2 < 1), if_pos hm3]
      · rw [if_pos (by omega : m - 2 < 1), if_neg hm3]
        have hb : m - 2 + 12 = m + 10 := by ring
        rw [hb]
    · rw [if_pos (by omega : m - 1 < 1), if_neg hm2,
        if_pos (by omega : m - 2 < 1), if_neg (by omega : ¬ 3 ≤ m)]
      have ha : m - 1 + 12 = m + 11 := by ring
      have hb : m - 2 + 12 = m + 10 := by ring
      rw [ha, hb]
  refine ⟨hw, ?_, rfl, ?_, fun pd now nowISO existing sources fetch => rfl⟩
  · intro p hp
    rw [hw] at hp
    simp only [List.mem_cons, List.not_mem_nil, or_false] at hp
    rcases hp with rfl | rfl | rfl
    · exact ⟨h1, h2⟩
    · by_cases hm2 : 2 ≤ m
      · rw [if_pos hm2]
        constructor <;> simp <;> omega
      · rw [if_neg hm2]
        constructor <;> simp <;> omega
    · by_cases hm3 : 3 ≤ m
      · rw [if_pos hm3]
        constructor <;> simp <;> omega
      · rw [if_neg hm3]
        constructor <;> simp <;> omega
  · rw [genUrls, hw]
    rfl

/-- C9 witness: the theorem applied at January (the wrapping case). -/
theorem slidingWindow_urls_witness :
    (1 : Int) ≤ 1 ∧ (1 : Int) ≤ 12
    ∧ (monthWindow 2024 1 = [(2024, 1),
        (if 2 ≤ (1 : Int) then ((2024 : Int), (1 : Int) - 1) else (2024 - 1, 1 + 11)),
        (if 3 ≤ (1 : Int) then ((2024 : Int), (1 : Int) - 2) else (2024 - 1, 1 + 10))]
       ∧ (∀ p ∈ monthWindow 2024 1, 1 ≤ p.2 ∧ p.2 ≤ 12)
       ∧ genUrls 2024 1 = (monthWindow 2024 1).map (fun p => issueListUrl p.1 p.2)
       ∧ (genUrls 2024 1).length = 3
       ∧ (∀ (pd : String → Option Int) (now : Int) (nowISO : String)
           (existing : List Article) (sources : List RssSource)
           (fetch : String → Option (List RawItem)),
           (fetchSpecialRSS pd now nowISO 2024 1 existing sources fetch).written =
             some (sortArticles pd (mergeAndDedup existing
               (specialBatch pd now nowISO 2024 1 sources fetch))))) :=
  ⟨by decide, by decide, slidingWindow_urls 2024 1 (by decide) (by decide)⟩
